import Mathlib

/-!
Verification development for the rx-tiny-flux store library.

The JavaScript source is shallowly embedded: JS objects whose identity
matters are modelled as structures carrying an explicit `ref : Nat`
identity, plain-object property tables are association lists
`List (String × α)` with JS assignment/read semantics, the JS value
`undefined` is `Option.none`, and `===` on slice values is Lean equality
on an abstract type `V` with decidable equality (reference identity).
-/

namespace RxTinyFlux

/-! ### JS plain-object property tables -/

/-- Property read `obj[k]`: first entry with the key, `none` when absent. -/
def getEntry {α : Type} : List (String × α) → String → Option α
  | [], _ => none
  | (k', v') :: es, k => if k' = k then some v' else getEntry es k

/-- Property write `obj[k] = v`: overwrite in place when the key is
present, otherwise append (JS insertion order). -/
def setEntry {α : Type} : List (String × α) → String → α → List (String × α)
  | [], k, v => [(k, v)]
  | (k', v') :: es, k, v => if k' = k then (k, v) :: es else (k', v') :: setEntry es k v

theorem getEntry_setEntry_self {α : Type} (es : List (String × α)) (k : String) (v : α) :
    getEntry (setEntry es k v) k = some v := by
  induction es with
  | nil => simp [setEntry, getEntry]
  | cons hd tl ih =>
    obtain ⟨k', v'⟩ := hd
    by_cases h : k' = k
    · simp [setEntry, getEntry, h]
    · simp [setEntry, getEntry, h, ih]

theorem getEntry_setEntry_ne {α : Type} (es : List (String × α)) (k k' : String) (v : α)
    (h : k' ≠ k) : getEntry (setEntry es k v) k' = getEntry es k' := by
  induction es with
  | nil => simp [setEntry, getEntry, Ne.symm h]
  | cons hd tl ih =>
    obtain ⟨k₀, v₀⟩ := hd
    by_cases h₀ : k₀ = k
    · subst h₀
      simp [setEntry, getEntry, Ne.symm h]
    · by_cases h₁ : k₀ = k'
      · simp [setEntry, getEntry, h₀, h₁, h]
      · simp [setEntry, getEntry, h₀, h₁, ih]

theorem setEntry_eq_append {α : Type} (es : List (String × α)) (k : String) (v : α)
    (h : getEntry es k = none) : setEntry es k v = es ++ [(k, v)] := by
  induction es with
  | nil => simp [setEntry]
  | cons hd tl ih =>
    obtain ⟨k', v'⟩ := hd
    by_cases hk : k' = k
    · simp [getEntry, hk] at h
    · simp [getEntry, hk] at h
      simp [setEntry, hk, ih h]

/-! ### JS values (untyped arguments of the public factory functions) -/

/-- A JavaScript value, as far as the embedded code inspects one. -/
inductive JsVal : Type where
  | vUndef : JsVal
  | vNull : JsVal
  | vBool : Bool → JsVal
  | vNum : Int → JsVal
  | vStr : String → JsVal
  | vObj : List (String × JsVal) → JsVal

/-- JS truthiness of a value (`!v` is its negation). -/
def jsTruthy : JsVal → Bool
  | .vUndef => false
  | .vNull => false
  | .vBool b => b
  | .vNum n => decide (n ≠ 0)
  | .vStr s => decide (s ≠ "")
  | .vObj _ => true

/-- `typeof v === 'string'`. -/
def JsVal.isStr : JsVal → Bool
  | .vStr _ => true
  | _ => false

/-- Extract the string of a `vStr` (junk elsewhere; used only under the
`isStr` guard). -/
def JsVal.strVal : JsVal → String
  | .vStr s => s
  | _ => ""

/-- Own enumerable properties contributed by `{...v}` spread: the fields
of an object, the indexed characters of a string, nothing for
primitives. -/
def spreadProps : JsVal → List (String × JsVal)
  | .vObj fs => fs
  | .vStr s => (s.data.enum.map fun p => (toString p.1, JsVal.vStr (String.mk [p.2])))
  | _ => []

/-! ### Actions

`Action` is the record the store pipeline inspects: a required `type`,
an optional payload slot and an optional opaque `context` reference
(contexts are component instances, modelled by their identity). -/

structure Action : Type where
  type : String
  payload : Option Int := none
  context : Option Nat := none
deriving DecidableEq, Repr

/-! ### reducers.js: `on` and `createReducer` -/

/-- An action reference passed to `on`: an action creator (which carries
its `type` string) or the sentinel `anyAction` function token. -/
inductive ActionRef : Type where
  | creator : String → ActionRef
  | anyTok : ActionRef
deriving DecidableEq

/-- `creator.type`: the sentinel `anyAction` has no `type` property
(`undefined`). -/
def ActionRef.typeProp : ActionRef → Option String
  | .creator t => some t
  | .anyTok => none

/-- A handler binding produced by `on`: the `types` array
(`actionCreators.map(c => c.type)`), the slice transition, and the
`isCatchAll` flag. -/
structure HandlerBinding (V : Type) : Type where
  types : List (Option String)
  reducerFn : Option V → Action → Option V
  isCatchAll : Bool

/-- `on(...actionCreators, reducerFn)` from reducers.js (named
`onBinding` here because `on` is a reserved token in this Lean
environment): flags the binding as catch-all when the `anyAction` token
appears, rejects a catch-all mixed with other creators, and records the
creators' types. -/
def onBinding {V : Type} (actionCreators : List ActionRef) (reducerFn : Option V → Action → Option V) :
    Except String (HandlerBinding V) :=
  let isCatchAll := ActionRef.anyTok ∈ actionCreators
  if isCatchAll ∧ actionCreators.length > 1 then
    .error "The `anyAction` token cannot be mixed with other action creators in a single `on` handler."
  else
    .ok ⟨actionCreators.map ActionRef.typeProp, reducerFn, isCatchAll⟩

/-- The default-parameter convention `(state = initialState, action)`:
the slice defaults to `initialState` exactly when the passed value is
`undefined`. -/
def defaultSlice {V : Type} (initialState : Option V) : Option V → Option V
  | none => initialState
  | some v => some v

/-- The slice transition closed over by `createReducer` (reducers.js
lines 49-64): default the slice to `initialState` when `undefined`, try
each specific handler in order, fall back to the catch-all, else return
the slice unchanged. -/
def mkReducerFn {V : Type} (initialState : Option V) (ons : List (HandlerBinding V)) :
    Option V → Action → Option V :=
  fun state action =>
    let st := defaultSlice initialState state
    let specificHandlers := ons.filter fun o => !o.isCatchAll
    match specificHandlers.find? (fun h => h.types.contains (some action.type)) with
    | some handler => handler.reducerFn st action
    | none =>
      match ons.find? (fun o => o.isCatchAll) with
      | some handler => handler.reducerFn st action
      | none => st

/-- A registered reducer descriptor `{path, initialState, reducerFn}`. -/
structure ReducerDescr (V : Type) : Type where
  path : String
  initialState : Option V
  reducerFn : Option V → Action → Option V

/-- `createReducer(featureKey, initialState, ...ons)` from reducers.js:
throws unless `featureKey` is a truthy string, otherwise returns the
descriptor whose transition is `mkReducerFn`. -/
def createReducer {V : Type} (featureKey : JsVal) (initialState : Option V)
    (ons : List (HandlerBinding V)) : Except String (ReducerDescr V) :=
  if !(jsTruthy featureKey) || !(featureKey.isStr) then
    .error "Reducer featureKey must be a non-empty string."
  else
    .ok ⟨featureKey.strVal, initialState, mkReducerFn initialState ons⟩

/-! ### The state container

A whole-state object: `ref` is the JS object identity (two containers
with the same `ref` are the same object), `entries` the property table.
Slice values live in an abstract type `V` whose Lean equality models
JS `===` (reference identity) on slice values. -/

structure Container (V : Type) : Type where
  ref : Nat
  entries : List (String × Option V)
deriving DecidableEq

/-- `state[k]`: `undefined` (`none`) when the key is absent or holds
`undefined`. -/
def Container.get {V : Type} (c : Container V) (k : String) : Option V :=
  (getEntry c.entries k).getD none

/-! ### store.js: the scan accumulator (structural-sharing revision,
lines 352-372)

`this._reducers.forEach(...)` is embedded as a structural recursion over
the registered descriptors, threading the shallow-copied property table
`nextState` together with the `hasChanged` flag. Each step reads the
slice from `currentState`, runs the descriptor's transition, and writes
the slice only when the transition returned a different reference. -/

def applyReducers {V : Type} [DecidableEq V] (currentState : Container V) (action : Action) :
    List (ReducerDescr V) → List (String × Option V) × Bool → List (String × Option V) × Bool
  | [], acc => acc
  | r :: rs, (es, hasChanged) =>
    let stateSlice := currentState.get r.path
    let nextStateSlice := r.reducerFn stateSlice action
    if stateSlice ≠ nextStateSlice then
      applyReducers currentState action rs (setEntry es r.path nextStateSlice, true)
    else
      applyReducers currentState action rs (es, hasChanged)

/-- One step of the `scan` accumulator: shallow-copy the container (a
fresh object identity `freshRef` over the same entries), fold the
registered reducers, and return the copy only when some slice changed,
otherwise the previous container itself. -/
def scanStep {V : Type} [DecidableEq V] (reducers : List (ReducerDescr V)) (freshRef : Nat)
    (currentState : Container V) (action : Action) : Container V :=
  let folded := applyReducers currentState action reducers (currentState.entries, false)
  if folded.2 then ⟨freshRef, folded.1⟩ else currentState

/-! ### store.js: construction (lines 343-381)

`new Store(initialState)` deep-clones `initialState` into
`initialStoreState`, seeds a `BehaviorSubject` with the clone, builds
`state$ = actions$.pipe(scan(..., initialStoreState),
startWith(initialState), shareReplay(1))` and subscribes `state$` back
into the `BehaviorSubject`. Because no action has been dispatched yet,
subscribing makes `startWith` immediately emit its argument — the RAW
`initialState` object — into the `BehaviorSubject`, which therefore
holds that object once the constructor returns. -/

/-- The deep clone (`structuredClone` / JSON round-trip): same structure
under a fresh object identity. -/
def deepClone {V : Type} (freshRef : Nat) (c : Container V) : Container V :=
  ⟨freshRef, c.entries⟩

/-- The container held by the store's `BehaviorSubject` (and replayed to
every subscriber) when the constructor finishes: the clone seeds the
subject, then `startWith(initialState)` overwrites it with the raw
caller-supplied object. -/
def stateAfterConstruction {V : Type} (initialState : Container V) (cloneRef : Nat) :
    Container V :=
  let initialStoreState := deepClone cloneRef initialState
  let behaviorSubjectSeed := initialStoreState
  let startWithEmission := initialState
  let _ := behaviorSubjectSeed
  startWithEmission

/-! ### store.js: `registerReducers` (lines 387-407) -/

/-- One back-fill step of the `reducers.forEach` loop: a slice key whose
current value is `undefined` receives the descriptor's initial state. -/
def backfillStep {V : Type} [DecidableEq V] (acc : List (String × Option V) × Bool) (r : ReducerDescr V) :
    List (String × Option V) × Bool :=
  if (getEntry acc.1 r.path).getD none = none then
    (setEntry acc.1 r.path r.initialState, true)
  else
    acc

/-- `registerReducers(...reducers)`: append the descriptors to the
registry, shallow-copy the current container, back-fill missing slices,
and publish the copy (under a fresh identity) only when something was
filled. Returns the new registry, the container held by the store
afterwards, and whether a state update was published. -/
def registerReducersStep {V : Type} [DecidableEq V] (registry : List (ReducerDescr V))
    (currentState : Container V) (freshRef : Nat) (newReducers : List (ReducerDescr V)) :
    List (ReducerDescr V) × Container V × Bool :=
  let registry' := registry ++ newReducers
  let folded := newReducers.foldl backfillStep (currentState.entries, false)
  (registry', if folded.2 then ⟨freshRef, folded.1⟩ else currentState, folded.2)

/-! ### store.js: effects (`setContext` lines 414-416,
`registerEffects` lines 422-442) and zeppos.js `createEffect`
(lines 229-240)

The rx wiring is embedded per emission: with `dispatch: true` the
subscription `effect$.pipe(map(inject)).subscribe(a => this.dispatch(a))`
feeds every value the effect's output stream emits, in order, through
the context-injection `map` and into `dispatch`; with `dispatch: false`
the bare `effect$.subscribe()` feeds nothing into `dispatch`. -/

/-- The `_rxEffect` metadata object attached by `createEffect`. -/
structure EffCfg : Type where
  dispatch : Bool
deriving DecidableEq

/-- The `dispatch` property of the `config` argument of `createEffect`
(`none` = property absent). -/
structure EffConfigArg : Type where
  dispatch : Option Bool
deriving DecidableEq

/-- `createEffect(effectFn, config)` metadata: `config` defaults to
`{dispatch: true}` and the stored flag is `config.dispatch !== false`. -/
def createEffectMeta (config : Option EffConfigArg) : EffCfg :=
  let cfg := config.getD ⟨some true⟩
  ⟨decide (cfg.dispatch ≠ some false)⟩

/-- `registerEffects` reads `effectFn._rxEffect || { dispatch: true }`. -/
def effectConfig (rxEffect : Option EffCfg) : EffCfg :=
  rxEffect.getD ⟨true⟩

/-- The context-injection `map` (store.js lines 430-434):
`this._context && !action.context ? {...action, context: this._context}
: action`. The store context is `object|null` and an action's `context`
an opaque object reference or absent, so truthiness is presence. -/
def injectContext (storeContext : Option Nat) (action : Action) : Action :=
  match storeContext with
  | some c => if action.context = none then { action with context := some c } else action
  | none => action

/-- The sequence of actions fed into `dispatch` when a registered
effect's output stream emits `emitted`. -/
def dispatchedFromEffect (config : EffCfg) (storeContext : Option Nat)
    (emitted : List Action) : List Action :=
  if config.dispatch then emitted.map (injectContext storeContext) else []

/-! ### selectors.js: `createSelector` memoization (lines 25-72)

The composed selector's closure state (`lastResult`, `lastArgs`,
`hasRun`) is threaded explicitly. The closure writes all three fields
together, so the only reachable combinations are "never ran"
(`hasRun = false`, both slots `undefined`) and "ran" (`hasRun = true`,
both slots set), embedded as the two constructors of `Memo`. Input and
result values live in an abstract type `W` whose Lean equality models
JS `===`. -/

inductive Memo (W : Type) : Type where
  | empty : Memo W
  | saved : List W → W → Memo W
deriving DecidableEq

/-- `areArgsEqual(a, b)` for a defined `b` (the `!b` guard corresponds
to `Memo.empty`): length check then index-wise `===`. -/
def areArgsEqual {W : Type} [DecidableEq W] (a b : List W) : Bool :=
  if a.length ≠ b.length then false
  else (a.zip b).all fun p => decide (p.1 = p.2)

/-- One invocation of the composed selector returned by
`createSelector(...inputSelectors, projectionFn)`: evaluate every input
selector on the state, return the cached result on a memo hit, otherwise
run the projection and cache inputs and result. The third component
records whether `projectionFn` was invoked during this call. -/
def selectorStep {S W : Type} [DecidableEq W] (inputSelectors : List (S → W))
    (projectionFn : List W → W) (memo : Memo W) (state : S) : W × Memo W × Bool :=
  let newArgs := inputSelectors.map fun sel => sel state
  match memo with
  | .saved lastArgs lastResult =>
    if areArgsEqual newArgs lastArgs then
      (lastResult, .saved lastArgs lastResult, false)
    else
      let r := projectionFn newArgs
      (r, .saved newArgs r, true)
  | .empty =>
    let r := projectionFn newArgs
    (r, .saved newArgs r, true)

/-! ### selectors.js: `createSelector` registration (lines 25-34)

For the registration-time behaviour the arguments are kept untyped, as
in JS: a value passed to `createSelector` is either a function (callable
as an input selector on the state or as the variadic projection) or a
non-callable value. -/

inductive SelectorArg (S W : Type) : Type where
  | func : (S → W) → (List W → W) → SelectorArg S W
  | nonFunc : SelectorArg S W

/-- The body of `createSelector(...args)` before the returned closure:
`args.pop()` is taken as the projection (on an empty list JS yields
`undefined`, which is not callable), the rest are the input selectors.
No argument is inspected and nothing is thrown. -/
def createSelectorReg {S W : Type} (args : List (SelectorArg S W)) :
    Except String (List (SelectorArg S W) × SelectorArg S W) :=
  .ok (args.dropLast, (args.getLast?).getD .nonFunc)

/-- The first invocation of the composed selector (`hasRun` is false, so
the memo-hit branch is unreachable): call every input selector, then
call the projection. Calling a non-function raises a `TypeError`. -/
def invokeComposedFirst {S W : Type} (inputSelectors : List (SelectorArg S W))
    (projectionFn : SelectorArg S W) (state : S) : Except String W :=
  match inputSelectors.mapM (fun a => match a with
    | .func f _ => Except.ok (f state)
    | .nonFunc => Except.error "TypeError: selector is not a function") with
  | .error e => .error e
  | .ok newArgs =>
    match projectionFn with
    | .func _ g => .ok (g newArgs)
    | .nonFunc => .error "TypeError: projectionFn is not a function"

/-- Whether an `Except` computation raised (a thrown JS error). -/
def isError {α : Type} : Except String α → Bool
  | .error _ => true
  | .ok _ => false

/-! ### actions.js: `createAction` (src/unnamed/part_002 lines 6-10) -/

/-- The action-creator function returned by `createAction`, with its
attached `type` property. -/
structure ActionCreatorJs : Type where
  type : String
  call : JsVal → JsVal

/-- The object literal `{ type, ...payload }`: start from the `type`
property, then add the payload's own enumerable properties in order
(overwriting on a duplicate key, as JS object literals do). -/
def mkActionObj (t : String) (payload : JsVal) : List (String × JsVal) :=
  (spreadProps payload).foldl (fun acc kv => setEntry acc kv.1 kv.2) [("type", JsVal.vStr t)]

/-- `createAction(type)`: a creator whose `type` property is `type` and
whose application builds `{ type, ...payload }`. -/
def createAction (t : String) : ActionCreatorJs :=
  ⟨t, fun payload => JsVal.vObj (mkActionObj t payload)⟩

/-! ### Concrete sample data (for evaluating the embedded operations) -/

/-- A counter reducer descriptor: increments on `INC`, else identity. -/
def sampleIncReducer : ReducerDescr Nat :=
  ⟨"counter", some 0, fun s a => if a.type = "INC" then some (s.getD 0 + 1) else s⟩

/-- A reducer descriptor that never changes its slice. -/
def sampleOtherReducer : ReducerDescr Nat :=
  ⟨"other", some 5, fun s _ => s⟩

/-- A sample state container holding both sample slices. -/
def sampleContainer : Container Nat :=
  ⟨0, [("counter", some 1), ("other", some 5)]⟩

/-- A sample `INC` action. -/
def sampleIncAction : Action :=
  ⟨"INC", none, none⟩

/-! ## Helper lemmas -/

theorem find?_filter_eq {α : Type} (l : List α) (p q : α → Bool) :
    (l.filter p).find? q = l.find? fun x => p x && q x := by
  induction l with
  | nil => rfl
  | cons x xs ih =>
    by_cases hp : p x
    · by_cases hq : q x
      · simp [List.filter_cons, hp, List.find?_cons_of_pos, hq]
      · rw [List.filter_cons_of_pos hp, List.find?_cons_of_neg _ (by simp [hq]),
          List.find?_cons_of_neg _ (by simp [hq]), ih]
    · rw [List.filter_cons_of_neg hp, List.find?_cons_of_neg _ (by simp [hp]), ih]

theorem getEntry_append {α : Type} (es₁ es₂ : List (String × α)) (k : String) :
    getEntry (es₁ ++ es₂) k =
      match getEntry es₁ k with
      | some v => some v
      | none => getEntry es₂ k := by
  induction es₁ with
  | nil => simp [getEntry]
  | cons hd tl ih =>
    obtain ⟨k', v'⟩ := hd
    by_cases h : k' = k
    · simp [getEntry, h]
    · simp [getEntry, h, ih]

theorem foldl_setEntry_append {α : Type} (fs : List (String × α)) :
    ∀ acc : List (String × α), (fs.map Prod.fst).Nodup →
    (∀ k, k ∈ fs.map Prod.fst → getEntry acc k = none) →
    fs.foldl (fun acc kv => setEntry acc kv.1 kv.2) acc = acc ++ fs := by
  induction fs with
  | nil => intro acc _ _; simp
  | cons hd tl ih =>
    intro acc hnodup hfree
    obtain ⟨k, v⟩ := hd
    simp only [List.map_cons, List.nodup_cons] at hnodup
    have hk : getEntry acc k = none := hfree k (by simp)
    have hstep : setEntry acc k v = acc ++ [(k, v)] := setEntry_eq_append acc k v hk
    have hfree' : ∀ k', k' ∈ tl.map Prod.fst → getEntry (acc ++ [(k, v)]) k' = none := by
      intro k' hk'
      rw [getEntry_append]
      have h₁ : getEntry acc k' = none := hfree k' (by simp [hk'])
      have h₂ : k ≠ k' := fun h => hnodup.1 (h ▸ hk')
      simp [h₁, getEntry, h₂]
    calc tl.foldl (fun acc kv => setEntry acc kv.1 kv.2) (setEntry acc k v)
        = tl.foldl (fun acc kv => setEntry acc kv.1 kv.2) (acc ++ [(k, v)]) := by rw [hstep]
      _ = (acc ++ [(k, v)]) ++ tl := ih (acc ++ [(k, v)]) hnodup.2 hfree'
      _ = acc ++ (k, v) :: tl := by simp

theorem mem_zip_self_eq {W : Type} : ∀ (xs : List W) (a b : W), (a, b) ∈ xs.zip xs → a = b := by
  intro xs
  induction xs with
  | nil => intro a b h; simp [List.zip] at h
  | cons x tl ih =>
    intro a b h
    rw [List.zip_cons_cons, List.mem_cons] at h
    rcases h with h | h
    · injection h with h₁ h₂; rw [h₁, h₂]
    · exact ih a b h

theorem areArgsEqual_iff {W : Type} [DecidableEq W] (a b : List W) :
    areArgsEqual a b = true ↔ a = b := by
  induction a generalizing b with
  | nil =>
    cases b with
    | nil => simp [areArgsEqual]
    | cons y ys => simp [areArgsEqual]
  | cons x xs ih =>
    cases b with
    | nil => simp [areArgsEqual]
    | cons y ys =>
      by_cases hlen : xs.length = ys.length
      · simp only [areArgsEqual, List.length_cons, hlen, ne_eq, not_true_eq_false,
          if_false, List.zip_cons_cons, List.all_cons, Bool.and_eq_true, decide_eq_true_eq]
        constructor
        · rintro ⟨hxy, hall⟩
          have : xs = ys := by
            have := (ih ys).mp (by simp [areArgsEqual, hlen, hall])
            exact this
          simp [hxy, this]
        · rintro h
          injection h with h₁ h₂
          subst h₁; subst h₂
          refine ⟨rfl, ?_⟩
          rw [List.all_eq_true]
          intro p hp
          exact decide_eq_true (mem_zip_self_eq xs p.1 p.2 hp)
      · have hne : x :: xs ≠ y :: ys := by
          intro h; injection h with _ h₂; exact hlen (by rw [h₂])
        simp [areArgsEqual, hlen, hne]

/-! ## Claims -/

/-- C10: for every `featureKey` that is not a non-empty string (the
empty string, `undefined`, or any non-string value) `createReducer`
throws synchronously before constructing a descriptor; for every
non-empty string key it returns a descriptor whose `path` is that key. -/
theorem createReducer_key_guard {V : Type} (k : JsVal) (init : Option V)
    (ons : List (HandlerBinding V)) :
    ((k.isStr = false ∨ k = JsVal.vStr "") →
      createReducer k init ons =
        Except.error "Reducer featureKey must be a non-empty string.") ∧
    (∀ s : String, s ≠ "" → k = JsVal.vStr s →
      ∃ d : ReducerDescr V, createReducer k init ons = Except.ok d ∧ d.path = s) := by
  constructor
  · rintro (h | h)
    · cases k <;> simp_all [createReducer, JsVal.isStr]
    · subst h; simp [createReducer, jsTruthy]
  · intro s hs hk
    subst hk
    refine ⟨⟨s, init, mkReducerFn init ons⟩, ?_, rfl⟩
    simp [createReducer, jsTruthy, JsVal.isStr, JsVal.strVal, hs]

/-- C10 witness: `createReducer` at the concrete key `"counter"`. -/
theorem createReducer_key_guard_witness :
    ∃ d : ReducerDescr Nat, createReducer (JsVal.vStr "counter") none [] = Except.ok d ∧
      d.path = "counter" :=
  (createReducer_key_guard (JsVal.vStr "counter") none []).2 "counter" (by decide) rfl

/-- C7: an effect registered with `config.dispatch` set to `false` is
subscribed for side effects only — whatever list of values its output
stream emits, none is fed into `dispatch`, hence none re-enters
`actions$`. -/
theorem effect_dispatch_false_discards (ctx : Option Nat) (emitted : List Action) :
    (createEffectMeta (some ⟨some false⟩)).dispatch = false ∧
    dispatchedFromEffect (effectConfig (some (createEffectMeta (some ⟨some false⟩)))) ctx
      emitted = [] := by
  refine ⟨by decide, ?_⟩
  simp [dispatchedFromEffect, effectConfig, createEffectMeta]

/-- C6: an effect registered with `dispatch = true` has every emitted
action fed into `dispatch` through the context-injection step: with an
active store context, an action lacking its own `context` is dispatched
with the store context merged in; an action already carrying a context,
or any action emitted while no context is set, is dispatched
unmodified. -/
theorem effect_dispatch_true_injects (cfg : EffCfg) (ctx : Option Nat) (emitted : List Action)
    (hd : cfg.dispatch = true) :
    dispatchedFromEffect cfg ctx emitted = emitted.map (injectContext ctx) ∧
    (∀ (a : Action) (c : Nat), ctx = some c → a.context = none →
      injectContext ctx a = { a with context := some c }) ∧
    (∀ a : Action, a.context ≠ none → injectContext ctx a = a) ∧
    (ctx = none → ∀ a : Action, injectContext ctx a = a) := by
  refine ⟨by simp [dispatchedFromEffect, hd], ?_, ?_, ?_⟩
  · intro a c hc ha
    subst hc
    simp [injectContext, ha]
  · intro a ha
    cases ctx with
    | none => simp [injectContext]
    | some c => simp [injectContext, ha]
  · intro hc a
    subst hc
    simp [injectContext]

/-- C6 witness: a concrete effect configuration, store context and
emitted action. -/
theorem effect_dispatch_true_injects_witness :
    dispatchedFromEffect ⟨true⟩ (some 7) [⟨"X", none, none⟩] =
      [⟨"X", none, none⟩].map (injectContext (some 7)) ∧
    (∀ (a : Action) (c : Nat), (some 7 : Option Nat) = some c → a.context = none →
      injectContext (some 7) a = { a with context := some c }) ∧
    (∀ a : Action, a.context ≠ none → injectContext (some 7) a = a) ∧
    ((some 7 : Option Nat) = none → ∀ a : Action, injectContext (some 7) a = a) :=
  effect_dispatch_true_injects ⟨true⟩ (some 7) [⟨"X", none, none⟩] rfl

/-- C8 counterexample: calling `createSelector` with a final argument
that is not a function does NOT fail at the registration call — at the
concrete argument list `[nonFunc]` the call returns normally instead of
raising a configuration error. -/
theorem createSelector_no_registration_error_cex :
    isError (createSelectorReg ([SelectorArg.nonFunc] : List (SelectorArg Unit Unit))) = false :=
  rfl

/-- C8 amended: a `createSelector` call whose final argument is not a
function returns normally at the registration call; the failure is
deferred to the composed selector, whose first invocation raises a
`TypeError`. -/
theorem createSelector_nonfunction_fails_on_invoke {S W : Type}
    (args : List (SelectorArg S W)) (state : S)
    (hlast : args.getLast? = some SelectorArg.nonFunc) :
    createSelectorReg args = Except.ok (args.dropLast, SelectorArg.nonFunc) ∧
    isError (invokeComposedFirst args.dropLast SelectorArg.nonFunc state) = true := by
  constructor
  · simp [createSelectorReg, hlast]
  · unfold invokeComposedFirst
    cases hmap : args.dropLast.mapM (fun a => match a with
      | SelectorArg.func f _ => Except.ok (f state)
      | SelectorArg.nonFunc =>
          Except.error "TypeError: selector is not a function") with
    | error e => rfl
    | ok newArgs => rfl

/-- C8 amended witness: the single-argument list `[nonFunc]` over the
unit state. -/
theorem createSelector_nonfunction_fails_on_invoke_witness :
    createSelectorReg ([SelectorArg.nonFunc] : List (SelectorArg Unit Unit)) =
      Except.ok ([], SelectorArg.nonFunc) ∧
    isError (invokeComposedFirst ([] : List (SelectorArg Unit Unit)) SelectorArg.nonFunc ()) =
      true :=
  createSelector_nonfunction_fails_on_invoke [SelectorArg.nonFunc] () rfl

/-- C9: `createAction(t)` returns a creator carrying `t` in its `type`
field; applying it spreads the payload's own enumerable properties next
to the `type` field (no `payload` wrapper key), so for a fresh-keyed
object payload the action is exactly `type` followed by the payload's
properties, and for a number payload the action is `{ type: t }` alone,
the number not being retained. -/
theorem createAction_spreads_payload (t : String) (n : Int) (fs : List (String × JsVal))
    (hnodup : (fs.map Prod.fst).Nodup) (hty : "type" ∉ fs.map Prod.fst) :
    (createAction t).type = t ∧
    (createAction t).call (JsVal.vNum n) = JsVal.vObj [("type", JsVal.vStr t)] ∧
    (createAction t).call (JsVal.vObj fs) =
      JsVal.vObj (("type", JsVal.vStr t) :: fs) := by
  refine ⟨rfl, rfl, ?_⟩
  have hfree : ∀ k, k ∈ fs.map Prod.fst →
      getEntry ([("type", JsVal.vStr t)] : List (String × JsVal)) k = none := by
    intro k hk
    have : "type" ≠ k := fun h => hty (h ▸ hk)
    simp [getEntry, this]
  show JsVal.vObj (mkActionObj t (JsVal.vObj fs)) = _
  rw [mkActionObj]
  simp only [spreadProps]
  rw [foldl_setEntry_append fs [("type", JsVal.vStr t)] hnodup hfree]
  rfl

/-- C9 witness: a concrete type string, number payload and object
payload. -/
theorem createAction_spreads_payload_witness :
    (createAction "INC").type = "INC" ∧
    (createAction "INC").call (JsVal.vNum 5) = JsVal.vObj [("type", JsVal.vStr "INC")] ∧
    (createAction "INC").call (JsVal.vObj [("amount", JsVal.vNum 2)]) =
      JsVal.vObj [("type", JsVal.vStr "INC"), ("amount", JsVal.vNum 2)] :=
  createAction_spreads_payload "INC" 5 [("amount", JsVal.vNum 2)]
    (by simp) (by simp)

/-- C2: the transition built by `createReducer` applies the first
non-catch-all binding, in the order supplied, whose type list contains
the action's type; when no specific binding matches it applies the
catch-all binding if present; otherwise it returns the slice unchanged —
the slice defaulting to `initialValue` when uninitialized. A reducer
built from `on(A, handlerA)` then `on(anyAction, handlerAny)` applies
`handlerA` to actions of type A and `handlerAny` to every other type. -/
theorem createReducer_transition {V : Type} (init : Option V)
    (ons : List (HandlerBinding V)) (s : Option V) (a : Action) :
    (∀ h : HandlerBinding V,
      (ons.find? fun o => !o.isCatchAll && o.types.contains (some a.type)) = some h →
      mkReducerFn init ons s a = h.reducerFn (defaultSlice init s) a) ∧
    ((ons.find? fun o => !o.isCatchAll && o.types.contains (some a.type)) = none →
      (∀ h : HandlerBinding V, (ons.find? fun o => o.isCatchAll) = some h →
        mkReducerFn init ons s a = h.reducerFn (defaultSlice init s) a) ∧
      ((ons.find? fun o => o.isCatchAll) = none →
        mkReducerFn init ons s a = defaultSlice init s)) ∧
    (defaultSlice init none = init) ∧
    (∀ (tA : String) (hA hAny : Option V → Action → Option V)
       (bA bAny : HandlerBinding V),
      onBinding [ActionRef.creator tA] hA = Except.ok bA →
      onBinding [ActionRef.anyTok] hAny = Except.ok bAny →
      (a.type = tA → mkReducerFn init [bA, bAny] s a = hA (defaultSlice init s) a) ∧
      (a.type ≠ tA → mkReducerFn init [bA, bAny] s a = hAny (defaultSlice init s) a)) := by
  have hfind : (ons.filter fun o => !o.isCatchAll).find?
      (fun h => h.types.contains (some a.type)) =
      ons.find? fun o => !o.isCatchAll && o.types.contains (some a.type) :=
    find?_filter_eq ons _ _
  refine ⟨?_, ?_, rfl, ?_⟩
  · intro h hh
    rw [mkReducerFn]
    simp only [hfind, hh]
  · intro hnone
    constructor
    · intro h hh
      rw [mkReducerFn]
      simp only [hfind, hnone, hh]
    · intro hcnone
      rw [mkReducerFn]
      simp only [hfind, hnone, hcnone]
  · intro tA hA hAny bA bAny hbA hbAny
    have hA' : bA = ⟨[some tA], hA, false⟩ := by
      rw [onBinding] at hbA
      simp only [List.mem_singleton, List.length_singleton] at hbA
      split at hbA
      · cases hbA
      · cases hbA
        simp [ActionRef.typeProp]
    have hAny' : bAny = ⟨[none], hAny, true⟩ := by
      rw [onBinding] at hbAny
      simp only [List.mem_singleton, List.length_singleton] at hbAny
      split at hbAny
      · cases hbAny
      · cases hbAny
        simp [ActionRef.typeProp]
    subst hA'; subst hAny'
    constructor
    · intro hty
      rw [mkReducerFn]
      simp [List.filter, List.find?, hty]
    · intro hty
      rw [mkReducerFn]
      simp [List.filter, List.find?, hty]

/-- C2 witness: a counter reducer with a specific `INC` binding followed
by an `anyAction` catch-all, applied to an `INC` action and to an
unrelated action. -/
theorem createReducer_transition_witness :
    (mkReducerFn (some (0 : Nat))
        [⟨[some "INC"], fun s _ => some (s.getD 0 + 1), false⟩,
         ⟨[none], fun s _ => s, true⟩] (some 1) ⟨"INC", none, none⟩ =
      (fun (s : Option Nat) (_ : Action) => some (s.getD 0 + 1))
        (defaultSlice (some 0) (some 1)) ⟨"INC", none, none⟩) ∧
    (mkReducerFn (some (0 : Nat))
        [⟨[some "INC"], fun s _ => some (s.getD 0 + 1), false⟩,
         ⟨[none], fun s _ => s, true⟩] (some 1) ⟨"OTHER", none, none⟩ =
      (fun (s : Option Nat) (_ : Action) => s)
        (defaultSlice (some 0) (some 1)) ⟨"OTHER", none, none⟩) := by
  have hbA : onBinding [ActionRef.creator "INC"]
      (fun (s : Option Nat) (_ : Action) => some (s.getD 0 + 1)) =
      Except.ok ⟨[some "INC"], fun s _ => some (s.getD 0 + 1), false⟩ := by
    rw [onBinding]
    simp [ActionRef.typeProp]
  have hbAny : onBinding [ActionRef.anyTok] (fun (s : Option Nat) (_ : Action) => s) =
      Except.ok ⟨[none], fun s _ => s, true⟩ := by
    rw [onBinding]
    simp [ActionRef.typeProp]
  constructor
  · exact ((createReducer_transition (some 0) [] (some 1)
      ⟨"INC", none, none⟩).2.2.2 "INC" _ _ _ _ hbA hbAny).1 rfl
  · exact ((createReducer_transition (some 0) [] (some 1)
      ⟨"OTHER", none, none⟩).2.2.2 "INC" _ _ _ _ hbA hbAny).2 (by decide)

/-- C3: a composed selector returns the reference-identical cached
result without invoking the projection whenever the input-selector
results are pairwise reference-equal (same length) to the previous
invocation's; otherwise it invokes the projection exactly once on the
new inputs, caches inputs and result, and returns the new result. Two
calls whose states yield reference-equal inputs return the identical
result object with the projection invoked exactly once across the two
calls. -/
theorem createSelector_memoization {S W : Type} [DecidableEq W]
    (inputSelectors : List (S → W)) (projectionFn : List W → W)
    (lastArgs : List W) (lastResult : W) (st s₁ s₂ : S) :
    ((inputSelectors.map fun sel => sel st) = lastArgs →
      selectorStep inputSelectors projectionFn (.saved lastArgs lastResult) st =
        (lastResult, .saved lastArgs lastResult, false)) ∧
    ((inputSelectors.map fun sel => sel st) ≠ lastArgs →
      selectorStep inputSelectors projectionFn (.saved lastArgs lastResult) st =
        (projectionFn (inputSelectors.map fun sel => sel st),
         .saved (inputSelectors.map fun sel => sel st)
           (projectionFn (inputSelectors.map fun sel => sel st)), true)) ∧
    (selectorStep inputSelectors projectionFn .empty st =
      (projectionFn (inputSelectors.map fun sel => sel st),
       .saved (inputSelectors.map fun sel => sel st)
         (projectionFn (inputSelectors.map fun sel => sel st)), true)) ∧
    ((inputSelectors.map fun sel => sel s₂) = (inputSelectors.map fun sel => sel s₁) →
      (selectorStep inputSelectors projectionFn .empty s₁).2.2 = true ∧
      (selectorStep inputSelectors projectionFn
        (selectorStep inputSelectors projectionFn .empty s₁).2.1 s₂).1 =
        (selectorStep inputSelectors projectionFn .empty s₁).1 ∧
      (selectorStep inputSelectors projectionFn
        (selectorStep inputSelectors projectionFn .empty s₁).2.1 s₂).2.2 = false) := by
  have hhit : ∀ t : S, (inputSelectors.map fun sel => sel t) = lastArgs →
      selectorStep inputSelectors projectionFn (.saved lastArgs lastResult) t =
        (lastResult, .saved lastArgs lastResult, false) := by
    intro t ht
    rw [selectorStep]
    simp only [ht, (areArgsEqual_iff lastArgs lastArgs).mpr rfl, if_true]
  have hmiss : ∀ t : S, (inputSelectors.map fun sel => sel t) ≠ lastArgs →
      selectorStep inputSelectors projectionFn (.saved lastArgs lastResult) t =
        (projectionFn (inputSelectors.map fun sel => sel t),
         .saved (inputSelectors.map fun sel => sel t)
           (projectionFn (inputSelectors.map fun sel => sel t)), true) := by
    intro t ht
    rw [selectorStep]
    have : areArgsEqual (inputSelectors.map fun sel => sel t) lastArgs = false := by
      cases hb : areArgsEqual (inputSelectors.map fun sel => sel t) lastArgs
      · rfl
      · exact absurd ((areArgsEqual_iff _ _).mp hb) ht
    simp only [this, Bool.false_eq_true, if_false]
  refine ⟨hhit st, hmiss st, rfl, ?_⟩
  intro heq
  have hfirst : selectorStep inputSelectors projectionFn .empty s₁ =
      (projectionFn (inputSelectors.map fun sel => sel s₁),
       .saved (inputSelectors.map fun sel => sel s₁)
         (projectionFn (inputSelectors.map fun sel => sel s₁)), true) := rfl
  rw [hfirst]
  have hsecond : selectorStep inputSelectors projectionFn
      (.saved (inputSelectors.map fun sel => sel s₁)
        (projectionFn (inputSelectors.map fun sel => sel s₁))) s₂ =
      (projectionFn (inputSelectors.map fun sel => sel s₁),
       .saved (inputSelectors.map fun sel => sel s₁)
         (projectionFn (inputSelectors.map fun sel => sel s₁)), false) := by
    rw [selectorStep]
    simp only [heq, (areArgsEqual_iff _ _).mpr rfl, if_true]
  rw [hsecond]
  exact ⟨rfl, rfl, rfl⟩

/-- C3 witness: a single input selector over `Nat` states and an adding
projection, called twice on states with equal selected inputs. -/
theorem createSelector_memoization_witness :
    (([fun n : Nat => n % 2].map fun sel => sel 4) = ([fun n : Nat => n % 2].map fun sel => sel 2) →
      (selectorStep [fun n : Nat => n % 2] (fun xs => xs.foldl (· + ·) 0) .empty 2).2.2 = true ∧
      (selectorStep [fun n : Nat => n % 2] (fun xs => xs.foldl (· + ·) 0)
        (selectorStep [fun n : Nat => n % 2] (fun xs => xs.foldl (· + ·) 0) .empty 2).2.1 4).1 =
        (selectorStep [fun n : Nat => n % 2] (fun xs => xs.foldl (· + ·) 0) .empty 2).1 ∧
      (selectorStep [fun n : Nat => n % 2] (fun xs => xs.foldl (· + ·) 0)
        (selectorStep [fun n : Nat => n % 2] (fun xs => xs.foldl (· + ·) 0) .empty 2).2.1 4).2.2 =
        false) ∧
    (([fun n : Nat => n % 2].map fun sel => sel 4) = ([fun n : Nat => n % 2].map fun sel => sel 2)) :=
  ⟨(createSelector_memoization [fun n : Nat => n % 2] (fun xs => xs.foldl (· + ·) 0)
      [] 0 0 2 4).2.2.2, by simp⟩

theorem applyReducers_flag {V : Type} [DecidableEq V] (cs : Container V) (a : Action) :
    ∀ (rs : List (ReducerDescr V)) (es : List (String × Option V)) (ch : Bool),
    (applyReducers cs a rs (es, ch)).2 =
      (ch || rs.any fun r => decide (cs.get r.path ≠ r.reducerFn (cs.get r.path) a)) := by
  intro rs
  induction rs with
  | nil => intro es ch; simp [applyReducers]
  | cons r rs ih =>
    intro es ch
    rw [applyReducers]
    by_cases h : cs.get r.path ≠ r.reducerFn (cs.get r.path) a
    · rw [if_pos h, ih]
      simp [h]
    · rw [if_neg h, ih]
      have hb : decide (cs.get r.path = r.reducerFn (cs.get r.path) a) = true :=
        decide_eq_true (not_not.mp h)
      simp [hb]

theorem applyReducers_untouched {V : Type} [DecidableEq V] (cs : Container V) (a : Action) :
    ∀ (rs : List (ReducerDescr V)) (es : List (String × Option V)) (ch : Bool) (k : String),
    k ∉ rs.map (fun r => r.path) →
    getEntry (applyReducers cs a rs (es, ch)).1 k = getEntry es k := by
  intro rs
  induction rs with
  | nil => intro es ch k _; simp [applyReducers]
  | cons r rs ih =>
    intro es ch k hk
    rw [List.map_cons, List.mem_cons, not_or] at hk
    rw [applyReducers]
    by_cases h : cs.get r.path ≠ r.reducerFn (cs.get r.path) a
    · rw [if_pos h, ih _ _ _ hk.2, getEntry_setEntry_ne]
      exact hk.1
    · rw [if_neg h, ih _ _ _ hk.2]

theorem applyReducers_values {V : Type} [DecidableEq V] (cs : Container V) (a : Action) :
    ∀ (rs : List (ReducerDescr V)) (es : List (String × Option V)) (ch : Bool),
    (rs.map (fun r => r.path)).Nodup →
    (∀ r ∈ rs, (getEntry es r.path).getD none = cs.get r.path) →
    ∀ r ∈ rs, (getEntry (applyReducers cs a rs (es, ch)).1 r.path).getD none =
      r.reducerFn (cs.get r.path) a := by
  intro rs
  induction rs with
  | nil => intro es ch _ _ r hr; simp at hr
  | cons r₀ rs ih =>
    intro es ch hnodup hes r hr
    rw [List.map_cons, List.nodup_cons] at hnodup
    rw [applyReducers]
    rcases List.mem_cons.mp hr with hhead | htail
    · subst hhead
      by_cases h : cs.get r.path ≠ r.reducerFn (cs.get r.path) a
      · rw [if_pos h,
          applyReducers_untouched cs a rs _ _ r.path hnodup.1,
          getEntry_setEntry_self]
        rfl
      · rw [if_neg h,
          applyReducers_untouched cs a rs _ _ r.path hnodup.1,
          hes r (by simp)]
        exact not_not.mp h
    · have hne : r.path ≠ r₀.path := by
        intro hpp
        exact hnodup.1 (hpp ▸ List.mem_map_of_mem (fun d : ReducerDescr V => d.path) htail)
      by_cases h : cs.get r₀.path ≠ r₀.reducerFn (cs.get r₀.path) a
      · rw [if_pos h]
        refine ih _ _ hnodup.2 ?_ r htail
        intro r' hr'
        by_cases hrp : r'.path = r₀.path
        · exact absurd (hrp ▸ List.mem_map_of_mem (fun d : ReducerDescr V => d.path) hr')
            hnodup.1
        · rw [getEntry_setEntry_ne _ _ _ _ hrp]
          exact hes r' (List.mem_cons_of_mem _ hr')
      · rw [if_neg h]
        exact ih _ _ hnodup.2 (fun r' hr' => hes r' (List.mem_cons_of_mem _ hr')) r htail

/-- C1: one step of the scan accumulator over a registry of
distinct-keyed descriptors (the data-model invariant): if every
registered transition returns its slice reference-identical, the step
returns the previous container itself (whole-container reference
identity); otherwise it returns a fresh shallow copy in which every
descriptor's slice is its transition's result — so exactly the changed
slices are replaced and every unchanged descriptor's slice, as well as
every key owned by no descriptor, stays reference-identical. -/
theorem scan_step_structural_sharing {V : Type} [DecidableEq V]
    (reducers : List (ReducerDescr V)) (freshRef : Nat) (cs : Container V) (a : Action)
    (hnodup : (reducers.map (fun r => r.path)).Nodup) (hfresh : freshRef ≠ cs.ref) :
    ((∀ r ∈ reducers, r.reducerFn (cs.get r.path) a = cs.get r.path) →
      scanStep reducers freshRef cs a = cs) ∧
    ((∃ r ∈ reducers, r.reducerFn (cs.get r.path) a ≠ cs.get r.path) →
      (scanStep reducers freshRef cs a).ref ≠ cs.ref ∧
      (∀ r ∈ reducers, (scanStep reducers freshRef cs a).get r.path =
        r.reducerFn (cs.get r.path) a) ∧
      (∀ k, k ∉ reducers.map (fun r => r.path) →
        (scanStep reducers freshRef cs a).get k = cs.get k)) := by
  constructor
  · intro hall
    have h2 : (applyReducers cs a reducers (cs.entries, false)).2 = false := by
      rw [applyReducers_flag]
      simp only [Bool.false_or, List.any_eq_false]
      intro r hr
      have hb : decide (cs.get r.path = r.reducerFn (cs.get r.path) a) = true :=
        decide_eq_true (hall r hr).symm
      simp [hb]
    rw [scanStep]
    simp only [h2, Bool.false_eq_true, if_false]
  · intro hex
    have h2 : (applyReducers cs a reducers (cs.entries, false)).2 = true := by
      rw [applyReducers_flag]
      simp only [Bool.false_or, List.any_eq_true]
      obtain ⟨r, hr, hne⟩ := hex
      exact ⟨r, hr, decide_eq_true (Ne.symm hne)⟩
    have hres : scanStep reducers freshRef cs a =
        ⟨freshRef, (applyReducers cs a reducers (cs.entries, false)).1⟩ := by
      rw [scanStep]
      simp only [h2, if_true]
    refine ⟨by rw [hres]; exact hfresh, ?_, ?_⟩
    · intro r hr
      rw [hres]
      exact applyReducers_values cs a reducers cs.entries false hnodup
        (fun r' _ => rfl) r hr
    · intro k hk
      rw [hres]
      show (getEntry (applyReducers cs a reducers (cs.entries, false)).1 k).getD none = cs.get k
      rw [applyReducers_untouched cs a reducers cs.entries false k hk]
      rfl

/-- C1 witness: the sample registry where the `INC` action changes the
`counter` slice and leaves the `other` slice untouched. -/
theorem scan_step_structural_sharing_witness :
    (scanStep [sampleIncReducer, sampleOtherReducer] 1 sampleContainer sampleIncAction).ref ≠
      sampleContainer.ref ∧
    (∀ r ∈ [sampleIncReducer, sampleOtherReducer],
      (scanStep [sampleIncReducer, sampleOtherReducer] 1 sampleContainer sampleIncAction).get
        r.path = r.reducerFn (sampleContainer.get r.path) sampleIncAction) ∧
    (∀ k, k ∉ [sampleIncReducer, sampleOtherReducer].map (fun r => r.path) →
      (scanStep [sampleIncReducer, sampleOtherReducer] 1 sampleContainer sampleIncAction).get k =
        sampleContainer.get k) :=
  (scan_step_structural_sharing [sampleIncReducer, sampleOtherReducer] 1 sampleContainer
    sampleIncAction (by decide) (by decide)).2
    (by decide)

theorem backfill_untouched {V : Type} [DecidableEq V] :
    ∀ (rs : List (ReducerDescr V)) (es : List (String × Option V)) (ch : Bool) (k : String),
    k ∉ rs.map (fun r => r.path) →
    getEntry (rs.foldl backfillStep (es, ch)).1 k = getEntry es k := by
  intro rs
  induction rs with
  | nil => intro es ch k _; rfl
  | cons r rs ih =>
    intro es ch k hk
    rw [List.map_cons, List.mem_cons, not_or] at hk
    rw [List.foldl_cons, backfillStep]
    by_cases h : (getEntry es r.path).getD none = none
    · rw [if_pos h, ih _ _ _ hk.2, getEntry_setEntry_ne _ _ _ _ hk.1]
    · rw [if_neg h, ih _ _ _ hk.2]

theorem backfill_values {V : Type} [DecidableEq V] (g : String → Option V) :
    ∀ (rs : List (ReducerDescr V)) (es : List (String × Option V)) (ch : Bool),
    (rs.map (fun r => r.path)).Nodup →
    (∀ r ∈ rs, (getEntry es r.path).getD none = g r.path) →
    ∀ r ∈ rs, (getEntry (rs.foldl backfillStep (es, ch)).1 r.path).getD none =
      (if g r.path = none then r.initialState else g r.path) := by
  intro rs
  induction rs with
  | nil => intro es ch _ _ r hr; simp at hr
  | cons r₀ rs ih =>
    intro es ch hnodup hes r hr
    rw [List.map_cons, List.nodup_cons] at hnodup
    rw [List.foldl_cons, backfillStep]
    have hg₀ : (getEntry es r₀.path).getD none = g r₀.path := hes r₀ (by simp)
    rcases List.mem_cons.mp hr with hhead | htail
    · subst hhead
      by_cases h : (getEntry es r.path).getD none = none
      · rw [if_pos h, backfill_untouched rs _ _ r.path hnodup.1, getEntry_setEntry_self]
        rw [if_pos (hg₀.symm.trans h)]
        rfl
      · rw [if_neg h, backfill_untouched rs _ _ r.path hnodup.1, hg₀]
        rw [if_neg (fun hh => h (hg₀.trans hh))]
    · have hne : r.path ≠ r₀.path := by
        intro hpp
        exact hnodup.1 (hpp ▸ List.mem_map_of_mem (fun d : ReducerDescr V => d.path) htail)
      by_cases h : (getEntry es r₀.path).getD none = none
      · rw [if_pos h]
        refine ih _ _ hnodup.2 ?_ r htail
        intro r' hr'
        by_cases hrp : r'.path = r₀.path
        · exact absurd (hrp ▸ List.mem_map_of_mem (fun d : ReducerDescr V => d.path) hr')
            hnodup.1
        · rw [getEntry_setEntry_ne _ _ _ _ hrp]
          exact hes r' (List.mem_cons_of_mem _ hr')
      · rw [if_neg h]
        exact ih _ _ hnodup.2 (fun r' hr' => hes r' (List.mem_cons_of_mem _ hr')) r htail

theorem backfill_flag {V : Type} [DecidableEq V] (g : String → Option V) :
    ∀ (rs : List (ReducerDescr V)) (es : List (String × Option V)) (ch : Bool),
    (∀ r ∈ rs, (getEntry es r.path).getD none = g r.path) →
    (rs.map (fun r => r.path)).Nodup →
    (rs.foldl backfillStep (es, ch)).2 = (ch || rs.any fun r => decide (g r.path = none)) := by
  intro rs
  induction rs with
  | nil => intro es ch _ _; simp
  | cons r₀ rs ih =>
    intro es ch hes hnodup
    rw [List.map_cons, List.nodup_cons] at hnodup
    rw [List.foldl_cons, backfillStep]
    have hg₀ : (getEntry es r₀.path).getD none = g r₀.path := hes r₀ (by simp)
    have htl : ∀ hcond : Bool, (∀ r' ∈ rs,
        (getEntry (if hcond then setEntry es r₀.path r₀.initialState else es) r'.path).getD
          none = g r'.path) := by
      intro hcond r' hr'
      have hne : r'.path ≠ r₀.path := by
        intro hpp
        exact hnodup.1 (hpp ▸ List.mem_map_of_mem (fun d : ReducerDescr V => d.path) hr')
      cases hcond
      · exact hes r' (List.mem_cons_of_mem _ hr')
      · simp only [if_true]
        rw [getEntry_setEntry_ne _ _ _ _ hne]
        exact hes r' (List.mem_cons_of_mem _ hr')
    by_cases h : (getEntry es r₀.path).getD none = none
    · rw [if_pos h, ih _ _ (by simpa using htl true) hnodup.2]
      have hd : decide (g r₀.path = none) = true := decide_eq_true (hg₀.symm.trans h)
      simp [hd]
    · rw [if_neg h, ih _ _ (by simpa using htl false) hnodup.2]
      have hd : decide (g r₀.path = none) = false :=
        decide_eq_false (fun hh => h (hg₀.trans hh))
      simp [hd]

/-- C5: `registerReducers(...descriptors)` (distinct keys, per the data
model) appends the descriptors to the registry, back-fills every slice
key whose current value is `undefined` with that descriptor's initial
value, leaves every already-present slice and every foreign key at its
prior value, and publishes the updated container (as a
dispatch-independent state update) exactly when some slice was
back-filled. -/
theorem register_reducers_backfill {V : Type} [DecidableEq V]
    (registry : List (ReducerDescr V)) (cur : Container V) (freshRef : Nat)
    (newReducers : List (ReducerDescr V))
    (hnodup : (newReducers.map (fun r => r.path)).Nodup) :
    (registerReducersStep registry cur freshRef newReducers).1 = registry ++ newReducers ∧
    (∀ r ∈ newReducers, cur.get r.path = none →
      (registerReducersStep registry cur freshRef newReducers).2.1.get r.path =
        r.initialState) ∧
    (∀ k, cur.get k ≠ none →
      (registerReducersStep registry cur freshRef newReducers).2.1.get k = cur.get k) ∧
    (∀ k, k ∉ newReducers.map (fun r => r.path) →
      (registerReducersStep registry cur freshRef newReducers).2.1.get k = cur.get k) ∧
    ((registerReducersStep registry cur freshRef newReducers).2.2 = true ↔
      ∃ r ∈ newReducers, cur.get r.path = none) := by
  have hes : ∀ r ∈ newReducers, (getEntry cur.entries r.path).getD none = cur.get r.path :=
    fun _ _ => rfl
  have hflag : (newReducers.foldl backfillStep (cur.entries, false)).2 =
      newReducers.any fun r => decide (cur.get r.path = none) := by
    rw [backfill_flag (fun k => cur.get k) newReducers cur.entries false hes hnodup]
    simp
  refine ⟨rfl, ?_, ?_, ?_, ?_⟩
  · intro r hr hmiss
    have hfl : (newReducers.foldl backfillStep (cur.entries, false)).2 = true := by
      rw [hflag, List.any_eq_true]
      exact ⟨r, hr, decide_eq_true hmiss⟩
    show (if (newReducers.foldl backfillStep (cur.entries, false)).2 then
        (⟨freshRef, (newReducers.foldl backfillStep (cur.entries, false)).1⟩ : Container V)
      else cur).get r.path = r.initialState
    rw [hfl, if_pos rfl]
    show (getEntry (newReducers.foldl backfillStep (cur.entries, false)).1 r.path).getD none =
      r.initialState
    rw [backfill_values (fun k => cur.get k) newReducers cur.entries false hnodup hes r hr]
    simp [hmiss]
  · intro k hk
    cases hfl : (newReducers.foldl backfillStep (cur.entries, false)).2
    · show (if (newReducers.foldl backfillStep (cur.entries, false)).2 then
          (⟨freshRef, (newReducers.foldl backfillStep (cur.entries, false)).1⟩ : Container V)
        else cur).get k = cur.get k
      rw [hfl, if_neg (by simp)]
    · show (if (newReducers.foldl backfillStep (cur.entries, false)).2 then
          (⟨freshRef, (newReducers.foldl backfillStep (cur.entries, false)).1⟩ : Container V)
        else cur).get k = cur.get k
      rw [hfl, if_pos rfl]
      by_cases hmem : k ∈ newReducers.map (fun r => r.path)
      · obtain ⟨r, hr, hrk⟩ := List.mem_map.mp hmem
        show (getEntry (newReducers.foldl backfillStep (cur.entries, false)).1 k).getD none =
          cur.get k
        rw [← hrk]
        rw [backfill_values (fun k => cur.get k) newReducers cur.entries false hnodup hes r hr]
        rw [if_neg (by rw [hrk]; exact hk)]
      · show (getEntry (newReducers.foldl backfillStep (cur.entries, false)).1 k).getD none =
          cur.get k
        rw [backfill_untouched newReducers cur.entries false k hmem]
        rfl
  · intro k hk
    cases hfl : (newReducers.foldl backfillStep (cur.entries, false)).2
    · show (if (newReducers.foldl backfillStep (cur.entries, false)).2 then
          (⟨freshRef, (newReducers.foldl backfillStep (cur.entries, false)).1⟩ : Container V)
        else cur).get k = cur.get k
      rw [hfl, if_neg (by simp)]
    · show (if (newReducers.foldl backfillStep (cur.entries, false)).2 then
          (⟨freshRef, (newReducers.foldl backfillStep (cur.entries, false)).1⟩ : Container V)
        else cur).get k = cur.get k
      rw [hfl, if_pos rfl]
      show (getEntry (newReducers.foldl backfillStep (cur.entries, false)).1 k).getD none =
        cur.get k
      rw [backfill_untouched newReducers cur.entries false k hk]
      rfl
  · show (newReducers.foldl backfillStep (cur.entries, false)).2 = true ↔ _
    rw [hflag, List.any_eq_true]
    constructor
    · rintro ⟨r, hr, hd⟩
      exact ⟨r, hr, of_decide_eq_true hd⟩
    · rintro ⟨r, hr, hd⟩
      exact ⟨r, hr, decide_eq_true hd⟩

/-- C5 witness: registering the sample descriptors for keys `a` then `b`
on a container already holding `a`'s slice. -/
theorem register_reducers_backfill_witness :
    (registerReducersStep ([sampleIncReducer] : List (ReducerDescr Nat))
      ⟨0, [("counter", some 1)]⟩ 1 [sampleOtherReducer]).1 =
        [sampleIncReducer] ++ [sampleOtherReducer] ∧
    (∀ r ∈ [sampleOtherReducer], (⟨0, [("counter", some 1)]⟩ : Container Nat).get r.path = none →
      (registerReducersStep [sampleIncReducer] ⟨0, [("counter", some 1)]⟩ 1
        [sampleOtherReducer]).2.1.get r.path = r.initialState) ∧
    (∀ k, (⟨0, [("counter", some 1)]⟩ : Container Nat).get k ≠ none →
      (registerReducersStep [sampleIncReducer] ⟨0, [("counter", some 1)]⟩ 1
        [sampleOtherReducer]).2.1.get k = (⟨0, [("counter", some 1)]⟩ : Container Nat).get k) ∧
    (∀ k, k ∉ [sampleOtherReducer].map (fun r => r.path) →
      (registerReducersStep [sampleIncReducer] ⟨0, [("counter", some 1)]⟩ 1
        [sampleOtherReducer]).2.1.get k = (⟨0, [("counter", some 1)]⟩ : Container Nat).get k) ∧
    ((registerReducersStep [sampleIncReducer] ⟨0, [("counter", some 1)]⟩ 1
        [sampleOtherReducer]).2.2 = true ↔
      ∃ r ∈ [sampleOtherReducer], (⟨0, [("counter", some 1)]⟩ : Container Nat).get r.path =
        none) :=
  register_reducers_backfill [sampleIncReducer] ⟨0, [("counter", some 1)]⟩ 1
    [sampleOtherReducer] (by decide)

/-- C4 (code bug): the constructor computes a deep clone of the caller's
`initialState` but the pipeline's `startWith(initialState)` immediately
pushes the RAW caller-supplied object into the state subject, so at the
concrete initial state `{a: 1}` the container the store holds and
replays after construction is reference-identical to the caller's object
and is not the clone — contradicting the deep-cloned-snapshot claim and
the constructor's own comment. -/
theorem construction_aliases_initial_state :
    stateAfterConstruction (⟨0, [("a", some (1 : Nat))]⟩ : Container Nat) 1 =
      (⟨0, [("a", some (1 : Nat))]⟩ : Container Nat) ∧
    (stateAfterConstruction (⟨0, [("a", some (1 : Nat))]⟩ : Container Nat) 1).ref ≠
      (deepClone 1 (⟨0, [("a", some (1 : Nat))]⟩ : Container Nat)).ref :=
  ⟨rfl, by decide⟩

end RxTinyFlux
